/-
Verification of the paparazzi AHRS multiplicative linearized Kalman filter
(`sw/airborne/subsystems/ahrs/ahrs_float_mlkf.c`) and of the attitude-frame
handling of the CHIMU serial module (`sw/airborne/modules/ins/ahrs_chimu_uart.c`).

Floating-point arithmetic is modelled as exact real arithmetic.  The small
algebra helpers that the filter calls (quaternion composition, rotation of a
vector by a quaternion, quaternion normalization and integration, the
fixed-size matrix kernel) live in headers that are not part of the staged
sources; they are modelled from the specification and each such definition is
marked `Modelled from the spec:` in its doc comment.
-/
import Mathlib

noncomputable section

open Matrix

/-- A 3-component float vector (`struct FloatVect3`). -/
@[ext]
structure FloatVect3 where
  x : ℝ
  y : ℝ
  z : ℝ

/-- Angular rates in rad/s (`struct FloatRates`). -/
@[ext]
structure FloatRates where
  p : ℝ
  q : ℝ
  r : ℝ

/-- A quaternion (`struct FloatQuat`), scalar part `qi`, vector part `qx qy qz`. -/
@[ext]
structure FloatQuat where
  qi : ℝ
  qx : ℝ
  qy : ℝ
  qz : ℝ

/-- The all-zero quaternion (not a rotation; used to state nondegeneracy). -/
def quatZero : FloatQuat := ⟨0, 0, 0, 0⟩

/-- Squared Euclidean norm of a quaternion. -/
def quatNorm2 (q : FloatQuat) : ℝ := q.qi ^ 2 + q.qx ^ 2 + q.qy ^ 2 + q.qz ^ 2

/-- Euclidean norm of a quaternion. -/
def quatNorm (q : FloatQuat) : ℝ := Real.sqrt (quatNorm2 q)

/-- Modelled from the spec: Euclidean norm of a 3-vector (`float_vect3_norm`,
from the algebra header that is not staged). -/
def float_vect3_norm (v : FloatVect3) : ℝ := Real.sqrt (v.x ^ 2 + v.y ^ 2 + v.z ^ 2)

/-- Modelled from the spec: quaternion composition (Hamilton product), the
`float_quat_comp` primitive of the algebra header. -/
def float_quat_comp (a b : FloatQuat) : FloatQuat :=
  ⟨a.qi * b.qi - a.qx * b.qx - a.qy * b.qy - a.qz * b.qz,
   a.qi * b.qx + a.qx * b.qi + a.qy * b.qz - a.qz * b.qy,
   a.qi * b.qy - a.qx * b.qz + a.qy * b.qi + a.qz * b.qx,
   a.qi * b.qz + a.qx * b.qy - a.qy * b.qx + a.qz * b.qi⟩

/-- Modelled from the spec: renormalization of a quaternion to unit length
(`float_quat_normalize`): each component is divided by the Euclidean norm. -/
def float_quat_normalize (q : FloatQuat) : FloatQuat :=
  ⟨q.qi / quatNorm q, q.qx / quatNorm q, q.qy / quatNorm q, q.qz / quatNorm q⟩

/-- Modelled from the spec: the identity value of the Gibbs error vector,
scalar part 2 and zero vector part (`float_quat_identity` applied to
`gibbs_cor`, whose scalar part is fixed at 2 by convention; the spec resets
the Gibbs error vector "to its identity value (scalar 2, vector zero)"). -/
def float_quat_identity : FloatQuat := ⟨2, 0, 0, 0⟩

/-- Modelled from the spec: rotation of a vector by a quaternion
(`float_quat_vmult`), written as the direction-cosine matrix of `q` applied
to `v`; this carries a reference-frame vector into the sensor frame. -/
def float_quat_vmult (q : FloatQuat) (v : FloatVect3) : FloatVect3 :=
  ⟨(q.qi ^ 2 + q.qx ^ 2 - q.qy ^ 2 - q.qz ^ 2) * v.x
     + 2 * (q.qx * q.qy + q.qi * q.qz) * v.y
     + 2 * (q.qx * q.qz - q.qi * q.qy) * v.z,
   2 * (q.qx * q.qy - q.qi * q.qz) * v.x
     + (q.qi ^ 2 - q.qx ^ 2 + q.qy ^ 2 - q.qz ^ 2) * v.y
     + 2 * (q.qy * q.qz + q.qi * q.qx) * v.z,
   2 * (q.qx * q.qz + q.qi * q.qy) * v.x
     + 2 * (q.qy * q.qz - q.qi * q.qx) * v.y
     + (q.qi ^ 2 - q.qx ^ 2 - q.qy ^ 2 + q.qz ^ 2) * v.z⟩

/-- Modelled from the spec: quaternion integration (`float_quat_integrate`):
compose with the exact quaternion exponential of the rotation `rate * dt`,
then renormalize to unit length. -/
def float_quat_integrate (q : FloatQuat) (rate : FloatRates) (dt : ℝ) : FloatQuat :=
  let ox := rate.p * dt
  let oy := rate.q * dt
  let oz := rate.r * dt
  let th := Real.sqrt (ox ^ 2 + oy ^ 2 + oz ^ 2)
  let dq : FloatQuat :=
    ⟨Real.cos (th / 2),
     Real.sin (th / 2) * ox / th,
     Real.sin (th / 2) * oy / th,
     Real.sin (th / 2) * oz / th⟩
  float_quat_normalize (float_quat_comp q dq)

/-- Modelled from the spec: composition with the inverse (conjugate) of a unit
quaternion (`float_quat_comp_inv`), used to map the sensor-frame orientation
through the fixed mounting transform. -/
def float_quat_comp_inv (a b : FloatQuat) : FloatQuat :=
  float_quat_comp a ⟨b.qi, -b.qx, -b.qy, -b.qz⟩

lemma quatNorm2_nonneg (q : FloatQuat) : 0 ≤ quatNorm2 q := by
  unfold quatNorm2; positivity

lemma quatNorm2_pos_of_ne_zero (q : FloatQuat) (h : q ≠ quatZero) : 0 < quatNorm2 q := by
  rcases lt_or_eq_of_le (quatNorm2_nonneg q) with hp | hp
  · exact hp
  · exfalso
    apply h
    have h0 : quatNorm2 q = 0 := hp.symm
    unfold quatNorm2 at h0
    have hi : q.qi = 0 := by
      have h1 : q.qi ^ 2 = 0 := by nlinarith [sq_nonneg q.qx, sq_nonneg q.qy, sq_nonneg q.qz]
      exact pow_eq_zero_iff (two_ne_zero) |>.mp h1
    have hx : q.qx = 0 := by
      have h1 : q.qx ^ 2 = 0 := by nlinarith [sq_nonneg q.qi, sq_nonneg q.qy, sq_nonneg q.qz]
      exact pow_eq_zero_iff (two_ne_zero) |>.mp h1
    have hy : q.qy = 0 := by
      have h1 : q.qy ^ 2 = 0 := by nlinarith [sq_nonneg q.qi, sq_nonneg q.qx, sq_nonneg q.qz]
      exact pow_eq_zero_iff (two_ne_zero) |>.mp h1
    have hz : q.qz = 0 := by
      have h1 : q.qz ^ 2 = 0 := by nlinarith [sq_nonneg q.qi, sq_nonneg q.qx, sq_nonneg q.qy]
      exact pow_eq_zero_iff (two_ne_zero) |>.mp h1
    ext <;> simp [quatZero, hi, hx, hy, hz]

/-- The Euler four-square identity: the squared norm is multiplicative. -/
lemma quatNorm2_comp (a b : FloatQuat) :
    quatNorm2 (float_quat_comp a b) = quatNorm2 a * quatNorm2 b := by
  simp only [float_quat_comp, quatNorm2]
  ring

lemma comp_ne_zero (a b : FloatQuat) (ha : a ≠ quatZero) (hb : b ≠ quatZero) :
    float_quat_comp a b ≠ quatZero := by
  intro h
  have h2 : quatNorm2 (float_quat_comp a b) = 0 := by rw [h]; simp [quatNorm2, quatZero]
  rw [quatNorm2_comp] at h2
  rcases mul_eq_zero.mp h2 with h' | h'
  · exact absurd h' (ne_of_gt (quatNorm2_pos_of_ne_zero a ha))
  · exact absurd h' (ne_of_gt (quatNorm2_pos_of_ne_zero b hb))

lemma quatNorm_normalize (q : FloatQuat) (h : q ≠ quatZero) :
    quatNorm (float_quat_normalize q) = 1 := by
  have h2 := quatNorm2_pos_of_ne_zero q h
  have hn : 0 < quatNorm q := Real.sqrt_pos.mpr h2
  have hsq : quatNorm q ^ 2 = quatNorm2 q := Real.sq_sqrt (quatNorm2_nonneg q)
  have key : quatNorm2 (float_quat_normalize q) = 1 := by
    unfold float_quat_normalize quatNorm2
    field_simp
    rw [hsq]
    unfold quatNorm2
    ring
  unfold quatNorm
  rw [key]
  exact Real.sqrt_one

lemma quatNorm_integrate (q : FloatQuat) (rate : FloatRates) (dt : ℝ)
    (h : q ≠ quatZero) : quatNorm (float_quat_integrate q rate dt) = 1 := by
  unfold float_quat_integrate
  apply quatNorm_normalize
  apply comp_ne_zero _ _ h
  set ox := rate.p * dt
  set oy := rate.q * dt
  set oz := rate.r * dt
  set th := Real.sqrt (ox ^ 2 + oy ^ 2 + oz ^ 2) with hth
  intro hz
  by_cases h0 : th = 0
  · have hqi := congrArg FloatQuat.qi hz
    simp only [quatZero] at hqi
    rw [h0] at hqi
    rw [show (0 : ℝ) / 2 = 0 by norm_num, Real.cos_zero] at hqi
    exact one_ne_zero hqi
  · have hth2 : th ^ 2 = ox ^ 2 + oy ^ 2 + oz ^ 2 := Real.sq_sqrt (by positivity)
    have hn2 : quatNorm2 ⟨Real.cos (th / 2), Real.sin (th / 2) * ox / th,
        Real.sin (th / 2) * oy / th, Real.sin (th / 2) * oz / th⟩ = 1 := by
      unfold quatNorm2
      have hpyth := Real.sin_sq_add_cos_sq (th / 2)
      field_simp
      nlinarith [hpyth, hth2]
    rw [hz] at hn2
    simp [quatNorm2, quatZero] at hn2

/-! ### The fixed-size matrix kernel (`math/pprz_simple_matrix.h`)

Modelled from the spec: "fixed-size (3-vector, 3x3, 6x6) linear algebra
primitives (multiply, transpose-multiply, subtract, 3x3 inverse)".  `MAT_MUL`
computes `o[i][j] = sum_k a[i][k] * b[k][j]`, `MAT_MUL_T` multiplies by the
transpose of its second argument, `MAT_SUB` subtracts entrywise, and
`MAT_INV33` is the cofactor (adjugate over determinant) 3x3 inverse. -/

/-- Modelled from the spec: fixed-size matrix product (`MAT_MUL`). -/
def MAT_MUL {m n p : ℕ} (a : Matrix (Fin m) (Fin n) ℝ) (b : Matrix (Fin n) (Fin p) ℝ) :
    Matrix (Fin m) (Fin p) ℝ :=
  Matrix.of fun i j => ∑ k, a i k * b k j

/-- Modelled from the spec: product with the transpose of the second factor
(`MAT_MUL_T`). -/
def MAT_MUL_T {m n p : ℕ} (a : Matrix (Fin m) (Fin n) ℝ) (b : Matrix (Fin p) (Fin n) ℝ) :
    Matrix (Fin m) (Fin p) ℝ :=
  Matrix.of fun i j => ∑ k, a i k * b j k

/-- Modelled from the spec: entrywise matrix subtraction (`MAT_SUB`). -/
def MAT_SUB {m n : ℕ} (a b : Matrix (Fin m) (Fin n) ℝ) : Matrix (Fin m) (Fin n) ℝ :=
  Matrix.of fun i j => a i j - b i j

/-- Modelled from the spec: the 3x3 matrix inverse primitive (`MAT_INV33`),
cofactors divided by the determinant. -/
def MAT_INV33 (m : Matrix (Fin 3) (Fin 3) ℝ) : Matrix (Fin 3) (Fin 3) ℝ :=
  let d := m 0 0 * (m 1 1 * m 2 2 - m 1 2 * m 2 1)
         - m 0 1 * (m 1 0 * m 2 2 - m 1 2 * m 2 0)
         + m 0 2 * (m 1 0 * m 2 1 - m 1 1 * m 2 0)
  !![ (m 1 1 * m 2 2 - m 1 2 * m 2 1) / d,
      -(m 0 1 * m 2 2 - m 0 2 * m 2 1) / d,
      (m 0 1 * m 1 2 - m 0 2 * m 1 1) / d ;
      -(m 1 0 * m 2 2 - m 1 2 * m 2 0) / d,
      (m 0 0 * m 2 2 - m 0 2 * m 2 0) / d,
      -(m 0 0 * m 1 2 - m 0 2 * m 1 0) / d ;
      (m 1 0 * m 2 1 - m 1 1 * m 2 0) / d,
      -(m 0 0 * m 2 1 - m 0 1 * m 2 0) / d,
      (m 0 0 * m 1 1 - m 0 1 * m 1 0) / d ]

lemma MAT_MUL_eq {m n p : ℕ} (a : Matrix (Fin m) (Fin n) ℝ) (b : Matrix (Fin n) (Fin p) ℝ) :
    MAT_MUL a b = a * b := by
  ext i j
  simp [MAT_MUL, Matrix.mul_apply]

lemma MAT_MUL_T_eq {m n p : ℕ} (a : Matrix (Fin m) (Fin n) ℝ) (b : Matrix (Fin p) (Fin n) ℝ) :
    MAT_MUL_T a b = a * bᵀ := by
  ext i j
  simp [MAT_MUL_T, Matrix.mul_apply, Matrix.transpose_apply]

lemma MAT_SUB_eq {m n : ℕ} (a b : Matrix (Fin m) (Fin n) ℝ) : MAT_SUB a b = a - b := by
  ext i j
  simp [MAT_SUB, Matrix.sub_apply]

lemma MAT_INV33_mul (m : Matrix (Fin 3) (Fin 3) ℝ) (h : m.det ≠ 0) :
    m * MAT_INV33 m = 1 := by
  have hd : m 0 0 * (m 1 1 * m 2 2 - m 1 2 * m 2 1)
      - m 0 1 * (m 1 0 * m 2 2 - m 1 2 * m 2 0)
      + m 0 2 * (m 1 0 * m 2 1 - m 1 1 * m 2 0) ≠ 0 := by
    intro h0
    apply h
    rw [Matrix.det_fin_three]
    linarith [h0]
  ext i j
  fin_cases i <;> fin_cases j <;>
    simp [MAT_INV33, Matrix.mul_apply, Fin.sum_univ_three, Matrix.one_apply] <;>
    field_simp <;> ring

lemma MAT_INV33_eq_inv (m : Matrix (Fin 3) (Fin 3) ℝ) (h : m.det ≠ 0) :
    MAT_INV33 m = m⁻¹ :=
  (Matrix.inv_eq_right_inv (MAT_INV33_mul m h)).symm

lemma MAT_INV33_symm (m : Matrix (Fin 3) (Fin 3) ℝ) (h : mᵀ = m) :
    (MAT_INV33 m)ᵀ = MAT_INV33 m := by
  have h01 : m 1 0 = m 0 1 := congrFun (congrFun h 0) 1
  have h02 : m 2 0 = m 0 2 := congrFun (congrFun h 0) 2
  have h12 : m 2 1 = m 1 2 := congrFun (congrFun h 1) 2
  ext i j
  fin_cases i <;> fin_cases j <;>
    simp [MAT_INV33, Matrix.transpose_apply] <;>
    rw [h01, h02, h12] <;> ring_nf

/-! ### Filter state (`struct AhrsMlkf`)

The vehicle-state sink (the `stateSetNedToBodyQuat_f` / `stateSetBodyRates_f`
interface) is modelled by the `published_quat` / `published_rate` fields:
`set_body_state_from_quat` is the only operation writing them. -/

/-- The filter's two-state status (`AHRS_MLKF_UNINIT` / `AHRS_MLKF_RUNNING`). -/
inductive MlkfStatus where
  | Uninit
  | Running
deriving DecidableEq

/-- The filter state `struct AhrsMlkf`, together with the fixed mounting
transform (`body_to_imu`, kept externally as both a quaternion and a rotation
matrix) and the vehicle-state sink fields. -/
structure AhrsMlkf where
  status : MlkfStatus
  ltp_to_imu_quat : FloatQuat
  imu_rate : FloatRates
  gyro_bias : FloatRates
  gibbs_cor : FloatQuat
  P : Matrix (Fin 6) (Fin 6) ℝ
  lp_accel : ℝ
  mag_h : FloatVect3
  mag_noise : FloatVect3
  body_to_imu_quat : FloatQuat
  body_to_imu_rmat : Matrix (Fin 3) (Fin 3) ℝ
  published_quat : FloatQuat
  published_rate : FloatRates

/-! ### The filter's operations (`ahrs_float_mlkf.c`) -/

/-- `propagate_ref`: subtract the current bias estimate from the raw rate,
store the debiased rate (direct mode, `AHRS_PROPAGATE_LOW_PASS_RATES` not
set), and integrate the reference quaternion.  The raw gyro sample is taken
already converted to float rad/s (the fixed-point scaling of
`RATES_FLOAT_OF_BFP` is a constant factor applied upstream). -/
def propagate_ref (gyro : FloatRates) (dt : ℝ) (s : AhrsMlkf) : AhrsMlkf :=
  let gyro_float : FloatRates :=
    ⟨gyro.p - s.gyro_bias.p, gyro.q - s.gyro_bias.q, gyro.r - s.gyro_bias.r⟩
  { s with
    imu_rate := gyro_float
    ltp_to_imu_quat := float_quat_integrate s.ltp_to_imu_quat gyro_float dt }

/-- `propagate_state`: predict the covariance, `P := F P Fᵀ`, then add the
process noise `GQG` on the diagonal. -/
def propagate_state (dt : ℝ) (s : AhrsMlkf) : AhrsMlkf :=
  let dp := s.imu_rate.p * dt
  let dq := s.imu_rate.q * dt
  let dr := s.imu_rate.r * dt
  let F : Matrix (Fin 6) (Fin 6) ℝ :=
    !![ 1,   dr, -dq, -dt,  0,   0 ;
       -dr,  1,   dp,  0,  -dt,  0 ;
        dq, -dp,  1,   0,   0,  -dt ;
        0,   0,   0,   1,   0,   0 ;
        0,   0,   0,   0,   1,   0 ;
        0,   0,   0,   0,   0,   1 ]
  let tmp := MAT_MUL F s.P
  let P1 := MAT_MUL_T tmp F
  let dt2 := dt * dt
  let GQG : Fin 6 → ℝ :=
    ![dt2 * 10e-3, dt2 * 10e-3, dt2 * 10e-3, dt2 * 9e-6, dt2 * 9e-6, dt2 * 9e-6]
  { s with P := Matrix.of fun i j => P1 i j + if i = j then GQG i else 0 }

/-- `update_state`: incorporate one 3D vector measurement. -/
def update_state (i_expected b_measured noise : FloatVect3) (s : AhrsMlkf) : AhrsMlkf :=
  let b_expected := float_quat_vmult s.ltp_to_imu_quat i_expected
  let H : Matrix (Fin 3) (Fin 6) ℝ :=
    !![ 0,            -b_expected.z,  b_expected.y, 0, 0, 0 ;
        b_expected.z,  0,            -b_expected.x, 0, 0, 0 ;
       -b_expected.y,  b_expected.x,  0,            0, 0, 0 ]
  let tmp := MAT_MUL H s.P
  let S0 := MAT_MUL_T tmp H
  let nv : Fin 3 → ℝ := ![noise.x, noise.y, noise.z]
  let S : Matrix (Fin 3) (Fin 3) ℝ := Matrix.of fun i j => S0 i j + if i = j then nv i else 0
  let invS := MAT_INV33 S
  let tmp2 := MAT_MUL_T s.P H
  let K := MAT_MUL tmp2 invS
  let tmp3 := MAT_MUL K H
  let I6 : Matrix (Fin 6) (Fin 6) ℝ :=
    !![ 1, 0, 0, 0, 0, 0 ;
        0, 1, 0, 0, 0, 0 ;
        0, 0, 1, 0, 0, 0 ;
        0, 0, 0, 1, 0, 0 ;
        0, 0, 0, 0, 1, 0 ;
        0, 0, 0, 0, 0, 1 ]
  let tmp4 := MAT_SUB I6 tmp3
  let tmp5 := MAT_MUL tmp4 s.P
  let e : FloatVect3 :=
    ⟨b_measured.x - b_expected.x, b_measured.y - b_expected.y, b_measured.z - b_expected.z⟩
  { s with
    P := tmp5
    gibbs_cor :=
      { s.gibbs_cor with
        qx := s.gibbs_cor.qx + (K 0 0 * e.x + K 0 1 * e.y + K 0 2 * e.z)
        qy := s.gibbs_cor.qy + (K 1 0 * e.x + K 1 1 * e.y + K 1 2 * e.z)
        qz := s.gibbs_cor.qz + (K 2 0 * e.x + K 2 1 * e.y + K 2 2 * e.z) }
    gyro_bias :=
      ⟨s.gyro_bias.p + (K 3 0 * e.x + K 3 1 * e.y + K 3 2 * e.z),
       s.gyro_bias.q + (K 4 0 * e.x + K 4 1 * e.y + K 4 2 * e.z),
       s.gyro_bias.r + (K 5 0 * e.x + K 5 1 * e.y + K 5 2 * e.z)⟩ }

/-- `reset_state`: set the scalar part of the Gibbs error vector to 2, fold it
into the reference quaternion, renormalize, and reset the Gibbs error vector
to its identity value. -/
def reset_state (s : AhrsMlkf) : AhrsMlkf :=
  let gibbs2 : FloatQuat := { s.gibbs_cor with qi := 2 }
  let q_tmp := float_quat_comp s.ltp_to_imu_quat gibbs2
  { s with
    ltp_to_imu_quat := float_quat_normalize q_tmp
    gibbs_cor := float_quat_identity }

/-- Modelled from the spec: application of the transpose of a rotation
matrix to a rate vector (`float_rmat_transp_ratemult`). -/
def float_rmat_transp_ratemult (R : Matrix (Fin 3) (Fin 3) ℝ) (r : FloatRates) : FloatRates :=
  ⟨R 0 0 * r.p + R 1 0 * r.q + R 2 0 * r.r,
   R 0 1 * r.p + R 1 1 * r.q + R 2 1 * r.r,
   R 0 2 * r.p + R 1 2 * r.q + R 2 2 * r.r⟩

/-- `set_body_state_from_quat`: compose the reference quaternion with the
inverse mounting quaternion and rotate the rate estimate by the transpose of
the mounting rotation matrix; publish both to the vehicle-state sink. -/
def set_body_state_from_quat (s : AhrsMlkf) : AhrsMlkf :=
  let ltp_to_body_quat := float_quat_comp_inv s.ltp_to_imu_quat s.body_to_imu_quat
  let body_rate := float_rmat_transp_ratemult s.body_to_imu_rmat s.imu_rate
  { s with
    published_quat := ltp_to_body_quat
    published_rate := body_rate }

/-- `ahrs_mlkf_propagate`. -/
def ahrs_mlkf_propagate (gyro : FloatRates) (dt : ℝ) (s : AhrsMlkf) : AhrsMlkf :=
  set_body_state_from_quat (propagate_state dt (propagate_ref gyro dt s))

/-- The adaptive accelerometer noise variance, `1 + 250 * |deviation|`. -/
def accelNoise (dev : ℝ) : ℝ := 1 + 250 * |dev|

/-- `ahrs_mlkf_update_accel`: low-pass the specific-force deviation, inflate
the noise, run the generic update against gravity, and reset.  The sample is
taken already converted to float m/s² (`ACCELS_FLOAT_OF_BFP` is a constant
scaling applied upstream). -/
def ahrs_mlkf_update_accel (accel : FloatVect3) (s : AhrsMlkf) : AhrsMlkf :=
  let imu_g := accel
  let alpha : ℝ := 0.92
  let lp := alpha * s.lp_accel + (1 - alpha) * (float_vect3_norm imu_g - 9.81)
  let earth_g : FloatVect3 := ⟨0, 0, -9.81⟩
  let dn := 250 * |lp|
  let g_noise : FloatVect3 := ⟨1 + dn, 1 + dn, 1 + dn⟩
  reset_state (update_state earth_g imu_g g_noise { s with lp_accel := lp })

/-- `ahrs_mlkf_update_mag`. -/
def ahrs_mlkf_update_mag (mag : FloatVect3) (s : AhrsMlkf) : AhrsMlkf :=
  reset_state (update_state s.mag_h mag s.mag_noise s)

/-! ### Alignment and event callbacks -/

/-- Modelled from the spec: the configured reference magnetic field
(`AHRS_H_X/Y/Z`, airframe configuration constants). -/
def AHRS_H : FloatVect3 := ⟨1, 0, 0⟩

/-- Dot product of two 3-vectors. -/
def v3dot (a b : FloatVect3) : ℝ := a.x * b.x + a.y * b.y + a.z * b.z

/-- Cross product of two 3-vectors. -/
def v3cross (a b : FloatVect3) : FloatVect3 :=
  ⟨a.y * b.z - a.z * b.y, a.z * b.x - a.x * b.z, a.x * b.y - a.y * b.x⟩

/-- The (unnormalized) shortest-arc quaternion carrying direction `u` to
direction `v`. -/
def shortest_arc_quat (u v : FloatVect3) : FloatQuat :=
  ⟨float_vect3_norm u * float_vect3_norm v + v3dot u v,
   (v3cross u v).x, (v3cross u v).y, (v3cross u v).z⟩

/-- Modelled from the spec: `ahrs_float_get_quat_from_accel_mag` (from
`ahrs_float_utils.h`, not staged) — the "closed-form reconciliation of the
measured gravity direction and measured magnetic-field direction against
their known reference directions", modelled as the normalized composition of
the shortest-arc rotation reconciling gravity with the shortest-arc rotation
reconciling the magnetic field.  No claim inspects this value; the claims
only use that alignment stores some quaternion and publishes it. -/
def ahrs_float_get_quat_from_accel_mag (accel mag : FloatVect3) : FloatQuat :=
  float_quat_normalize
    (float_quat_comp (shortest_arc_quat AHRS_H mag)
      (shortest_arc_quat ⟨0, 0, -9.81⟩ accel))

/-- `ahrs_mlkf_align`: compute the initial orientation, publish it, take the
averaged gyro as the initial bias, and transition to `Running`. -/
def ahrs_mlkf_align (lp_gyro : FloatRates) (lp_accel lp_mag : FloatVect3)
    (s : AhrsMlkf) : AhrsMlkf :=
  let s1 := { s with ltp_to_imu_quat := ahrs_float_get_quat_from_accel_mag lp_accel lp_mag }
  let s2 := set_body_state_from_quat s1
  { s2 with gyro_bias := lp_gyro, status := MlkfStatus.Running }

/-- The measured-`dt` computation of `gyro_cb`: the unsigned 32-bit difference
of the microsecond timestamps, scaled to seconds. -/
def gyro_dt (stamp last_stamp : ℕ) : ℝ :=
  (((stamp + 2 ^ 32 - last_stamp % 2 ^ 32) % 2 ^ 32 : ℕ) : ℝ) * 1e-6

/-- `gyro_cb` (measured-`dt` mode, `AHRS_PROPAGATE_FREQUENCY` not defined):
the state is paired with the static `last_stamp`, initially 0; propagation
runs only when a prior timestamp exists and the filter is running, and the
timestamp is recorded unconditionally. -/
def gyro_cb (stamp : ℕ) (gyro : FloatRates) (st : ℕ × AhrsMlkf) : ℕ × AhrsMlkf :=
  if 0 < st.1 ∧ st.2.status = MlkfStatus.Running then
    (stamp, ahrs_mlkf_propagate gyro (gyro_dt stamp st.1) st.2)
  else
    (stamp, st.2)

/-- `accel_cb`: update only when running. -/
def accel_cb (accel : FloatVect3) (s : AhrsMlkf) : AhrsMlkf :=
  if s.status = MlkfStatus.Running then ahrs_mlkf_update_accel accel s else s

/-- `mag_cb`: update only when running. -/
def mag_cb (mag : FloatVect3) (s : AhrsMlkf) : AhrsMlkf :=
  if s.status = MlkfStatus.Running then ahrs_mlkf_update_mag mag s else s

/-- `aligner_cb`: align only when not yet running. -/
def aligner_cb (lp_gyro : FloatRates) (lp_accel lp_mag : FloatVect3)
    (s : AhrsMlkf) : AhrsMlkf :=
  if s.status ≠ MlkfStatus.Running then ahrs_mlkf_align lp_gyro lp_accel lp_mag s else s

/-- A sensor or alignment event, as delivered by the ABI bus. -/
inductive MlkfEvent where
  | gyro (stamp : ℕ) (g : FloatRates)
  | accel (a : FloatVect3)
  | mag (m : FloatVect3)
  | align (lp_gyro : FloatRates) (lp_accel lp_mag : FloatVect3)

/-- Whether an event is an alignment event. -/
def MlkfEvent.isAlign : MlkfEvent → Bool
  | .align _ _ _ => true
  | _ => false

/-- Dispatch of one event to its callback (the state is paired with the
static `last_stamp` of `gyro_cb`). -/
def mlkf_step (e : MlkfEvent) (st : ℕ × AhrsMlkf) : ℕ × AhrsMlkf :=
  match e with
  | .gyro stamp g => gyro_cb stamp g st
  | .accel a => (st.1, accel_cb a st.2)
  | .mag m => (st.1, mag_cb m st.2)
  | .align lg la lm => (st.1, aligner_cb lg la lm st.2)

/-- A sequence of events, delivered serially. -/
def mlkf_run (evs : List MlkfEvent) (st : ℕ × AhrsMlkf) : ℕ × AhrsMlkf :=
  evs.foldl (fun acc e => mlkf_step e acc) st

/-! ### The CHIMU attitude-frame handling (`ahrs_chimu_uart.c`) -/

/-- The part of the vehicle-state sink the CHIMU module writes: NED-to-body
Euler angles (`stateSetNedToBodyEulers_f`). -/
structure ChimuSink where
  phi : ℝ
  theta : ℝ
  psi : ℝ

/-- The roll range reduction of `parse_ins_msg`: one conditional subtraction
of `2π`. -/
def chimu_reduce_phi (phi : ℝ) : ℝ :=
  if phi > Real.pi then phi - 2 * Real.pi else phi

/-- The per-message handling of `parse_ins_msg`: for an accepted frame with
message id `0x03` carrying decoded Euler angles, range-reduce the roll and
write the attitude to the vehicle-state sink; other message ids leave the
sink unchanged.  The frame decoding itself (`CHIMU_Parse`, from
`imu_chimu.c`, not staged) is modelled from the spec, which constrains the
decoded angles in no way: they enter here as arbitrary reals. -/
def chimu_handle_msg (msgID : ℕ) (phi theta psi : ℝ) (sink : ChimuSink) : ChimuSink :=
  if msgID = 3 then
    { phi := chimu_reduce_phi phi, theta := theta, psi := psi }
  else
    sink

/-! ### Spec-side formulations

These definitions follow the wording of the specification (§4.3, §4.4) and
of the claims; the theorems below relate the source-level computations to
them. -/

universe u

@[simp]
lemma cons_val_five {α : Type u} {m : ℕ} (x : α) (u : Fin (m + 5) → α) :
    Matrix.vecCons x u 5 =
      Matrix.vecHead (Matrix.vecTail (Matrix.vecTail (Matrix.vecTail (Matrix.vecTail u)))) :=
  rfl

/-- The skew-symmetric (cross-product) matrix of a 3-vector. -/
def skewM (v : FloatVect3) : Matrix (Fin 3) (Fin 3) ℝ :=
  !![ 0, -v.z, v.y ;
      v.z, 0, -v.x ;
     -v.y, v.x, 0 ]

/-- The observation Jacobian of the spec, `H = [skew(predicted) | 0]`: the
left 3x3 block is the skew matrix of the predicted measurement, the right
(bias) block is zero. -/
def specH (v : FloatVect3) : Matrix (Fin 3) (Fin 6) ℝ :=
  Matrix.of fun i j => if hj : (j : ℕ) < 3 then skewM v i ⟨j, hj⟩ else 0

/-- A noise vector as a function on `Fin 3`. -/
def noiseVec (no : FloatVect3) : Fin 3 → ℝ := ![no.x, no.y, no.z]

/-- The predicted measurement of the spec: the expected reference-frame
vector rotated by the current reference quaternion. -/
def specPred (s : AhrsMlkf) (i_expected : FloatVect3) : FloatVect3 :=
  float_quat_vmult s.ltp_to_imu_quat i_expected

/-- The innovation covariance of the spec, `S = H P Hᵀ + diag(noise)`. -/
def specS (s : AhrsMlkf) (i_expected noise : FloatVect3) : Matrix (Fin 3) (Fin 3) ℝ :=
  specH (specPred s i_expected) * s.P * (specH (specPred s i_expected))ᵀ
    + Matrix.diagonal (noiseVec noise)

/-- The Kalman gain of the spec, `K = P Hᵀ S⁻¹`. -/
def specK (s : AhrsMlkf) (i_expected noise : FloatVect3) : Matrix (Fin 6) (Fin 3) ℝ :=
  s.P * (specH (specPred s i_expected))ᵀ * (specS s i_expected noise)⁻¹

/-- The state-transition matrix of the spec (§4.3): attitude block
`I` with antisymmetric cross-coupling terms `±rate_axis·dt` (that is,
`I - skew(rate*dt)`), attitude-to-bias block `-dt·I`, bias block the
identity, rest zero. -/
def specF (dt : ℝ) (rate : FloatRates) : Matrix (Fin 6) (Fin 6) ℝ :=
  Matrix.of fun i j =>
    if hi : (i : ℕ) < 3 then
      if hj : (j : ℕ) < 3 then
        (1 - skewM ⟨rate.p * dt, rate.q * dt, rate.r * dt⟩) ⟨i, hi⟩ ⟨j, hj⟩
      else
        ((-dt) • (1 : Matrix (Fin 3) (Fin 3) ℝ)) ⟨i, hi⟩ ⟨(j : ℕ) - 3, by
          have := j.isLt; omega⟩
    else
      if hj : (j : ℕ) < 3 then 0
      else (1 : Matrix (Fin 3) (Fin 3) ℝ) ⟨(i : ℕ) - 3, by have := i.isLt; omega⟩
        ⟨(j : ℕ) - 3, by have := j.isLt; omega⟩

/-- The diagonal process noise of the spec: attitude entries `dt² · 1e-2`,
bias entries `dt² · 9e-6`. -/
def specQ (dt : ℝ) : Fin 6 → ℝ :=
  fun i => if (i : ℕ) < 3 then dt ^ 2 * 1e-2 else dt ^ 2 * 9e-6

lemma diag_add_eq {n : ℕ} (M : Matrix (Fin n) (Fin n) ℝ) (g : Fin n → ℝ) :
    (Matrix.of fun i j => M i j + if i = j then g i else 0) = M + Matrix.diagonal g := by
  ext i j
  by_cases h : i = j <;> simp [Matrix.diagonal_apply, h, Matrix.add_apply]

@[simp]
lemma fin6_val_three : ((3 : Fin 6) : ℕ) = 3 := rfl

@[simp]
lemma fin6_val_four : ((4 : Fin 6) : ℕ) = 4 := rfl

@[simp]
lemma fin6_val_five : ((5 : Fin 6) : ℕ) = 5 := rfl

/-- The transition matrix written in `propagate_state` is the block matrix
described by the spec. -/
lemma srcF_eq_specF (dt : ℝ) (rate : FloatRates) :
    (!![ 1,   rate.r * dt, -(rate.q * dt), -dt,  0,   0 ;
        -(rate.r * dt),  1,   rate.p * dt,  0,  -dt,  0 ;
         rate.q * dt, -(rate.p * dt),  1,   0,   0,  -dt ;
         0,   0,   0,   1,   0,   0 ;
         0,   0,   0,   0,   1,   0 ;
         0,   0,   0,   0,   0,   1 ] : Matrix (Fin 6) (Fin 6) ℝ) = specF dt rate := by
  ext i j
  fin_cases i <;> fin_cases j <;>
    simp [specF, skewM, Matrix.one_apply, Matrix.sub_apply, Matrix.smul_apply,
      Matrix.vecHead, Matrix.vecTail]

/-- What `propagate_state` does to the covariance, in the spec's terms. -/
lemma propagate_state_P (dt : ℝ) (s : AhrsMlkf) :
    (propagate_state dt s).P
      = specF dt s.imu_rate * s.P * (specF dt s.imu_rate)ᵀ + Matrix.diagonal (specQ dt) := by
  show (Matrix.of fun i j =>
      (MAT_MUL_T (MAT_MUL
        (!![ 1,   s.imu_rate.r * dt, -(s.imu_rate.q * dt), -dt,  0,   0 ;
            -(s.imu_rate.r * dt),  1,   s.imu_rate.p * dt,  0,  -dt,  0 ;
             s.imu_rate.q * dt, -(s.imu_rate.p * dt),  1,   0,   0,  -dt ;
             0,   0,   0,   1,   0,   0 ;
             0,   0,   0,   0,   1,   0 ;
             0,   0,   0,   0,   0,   1 ] : Matrix (Fin 6) (Fin 6) ℝ) s.P)
        (!![ 1,   s.imu_rate.r * dt, -(s.imu_rate.q * dt), -dt,  0,   0 ;
            -(s.imu_rate.r * dt),  1,   s.imu_rate.p * dt,  0,  -dt,  0 ;
             s.imu_rate.q * dt, -(s.imu_rate.p * dt),  1,   0,   0,  -dt ;
             0,   0,   0,   1,   0,   0 ;
             0,   0,   0,   0,   1,   0 ;
             0,   0,   0,   0,   0,   1 ])) i j
      + if i = j then
          (![dt * dt * 10e-3, dt * dt * 10e-3, dt * dt * 10e-3,
             dt * dt * 9e-6, dt * dt * 9e-6, dt * dt * 9e-6] : Fin 6 → ℝ) i
        else 0)
    = specF dt s.imu_rate * s.P * (specF dt s.imu_rate)ᵀ + Matrix.diagonal (specQ dt)
  rw [diag_add_eq, MAT_MUL_eq, MAT_MUL_T_eq, srcF_eq_specF]
  have hq : (![dt * dt * 10e-3, dt * dt * 10e-3, dt * dt * 10e-3,
      dt * dt * 9e-6, dt * dt * 9e-6, dt * dt * 9e-6] : Fin 6 → ℝ) = specQ dt := by
    funext i
    fin_cases i <;>
      simp [specQ, Matrix.vecHead, Matrix.vecTail] <;> norm_num <;> ring
  rw [hq]

/-- The observation Jacobian written in `update_state` is `[skew(predicted)|0]`. -/
lemma srcH_eq_specH (v : FloatVect3) :
    (!![ 0, -v.z, v.y, 0, 0, 0 ;
         v.z, 0, -v.x, 0, 0, 0 ;
        -v.y, v.x, 0, 0, 0, 0 ] : Matrix (Fin 3) (Fin 6) ℝ) = specH v := by
  ext i j
  fin_cases i <;> fin_cases j <;>
    simp [specH, skewM, Matrix.vecHead, Matrix.vecTail]

/-- The identity written in `update_state` is the identity matrix. -/
lemma srcI6_eq_one :
    (!![ 1, 0, 0, 0, 0, 0 ;
         0, 1, 0, 0, 0, 0 ;
         0, 0, 1, 0, 0, 0 ;
         0, 0, 0, 1, 0, 0 ;
         0, 0, 0, 0, 1, 0 ;
         0, 0, 0, 0, 0, 1 ] : Matrix (Fin 6) (Fin 6) ℝ) = 1 := by
  ext i j
  fin_cases i <;> fin_cases j <;>
    simp [Matrix.one_apply, Matrix.vecHead, Matrix.vecTail]

/-- What `update_state` does, in the spec's terms (no invertibility assumed:
`MAT_INV33` is the kernel's cofactor inverse). -/
lemma update_state_eq (ie me no : FloatVect3) (s : AhrsMlkf) :
    update_state ie me no s =
      (let H := specH (specPred s ie)
      let M := MAT_INV33 (specS s ie no)
      let K := s.P * Hᵀ * M
      let e : FloatVect3 :=
        ⟨me.x - (specPred s ie).x, me.y - (specPred s ie).y, me.z - (specPred s ie).z⟩
      { s with
        P := (1 - K * H) * s.P
        gibbs_cor :=
          { s.gibbs_cor with
            qx := s.gibbs_cor.qx + (K 0 0 * e.x + K 0 1 * e.y + K 0 2 * e.z)
            qy := s.gibbs_cor.qy + (K 1 0 * e.x + K 1 1 * e.y + K 1 2 * e.z)
            qz := s.gibbs_cor.qz + (K 2 0 * e.x + K 2 1 * e.y + K 2 2 * e.z) }
        gyro_bias :=
          ⟨s.gyro_bias.p + (K 3 0 * e.x + K 3 1 * e.y + K 3 2 * e.z),
           s.gyro_bias.q + (K 4 0 * e.x + K 4 1 * e.y + K 4 2 * e.z),
           s.gyro_bias.r + (K 5 0 * e.x + K 5 1 * e.y + K 5 2 * e.z)⟩ }) := by
  simp only [update_state, MAT_MUL_eq, MAT_MUL_T_eq, MAT_SUB_eq, diag_add_eq,
    srcH_eq_specH, srcI6_eq_one, specS, specPred, noiseVec]

/-- C2: for every rate estimate and every `dt`, covariance propagation
replaces `P` with `F P Fᵀ + Q`, where `F` has attitude block `I` with
antisymmetric cross-coupling terms `±rate_axis·dt` on the off-diagonals
(`specF`: `I - skew(rate*dt)`), attitude-to-bias block `-dt·I`, bias block
the identity and zeros elsewhere, and `Q` is diagonal with the three
attitude entries `dt²·1e-2` and the three bias entries `dt²·9e-6` (`specQ`). -/
theorem C2_covariance_propagation (dt : ℝ) (s : AhrsMlkf) :
    (propagate_state dt s).P
      = specF dt s.imu_rate * s.P * (specF dt s.imu_rate)ᵀ + Matrix.diagonal (specQ dt) :=
  propagate_state_P dt s

/-- The innovation covariance is symmetric whenever `P` is. -/
lemma specS_symm (s : AhrsMlkf) (ie no : FloatVect3) (hP : s.Pᵀ = s.P) :
    (specS s ie no)ᵀ = specS s ie no := by
  unfold specS
  rw [Matrix.transpose_add, Matrix.diagonal_transpose, Matrix.transpose_mul,
    Matrix.transpose_mul, Matrix.transpose_transpose, hP, Matrix.mul_assoc]

/-- C4: if the covariance matrix is symmetric before an operation, it stays
symmetric (exactly, in real arithmetic) after covariance propagation and
after a measurement update, for all `dt`, rate estimates, expected and
measured vectors and nonnegative noise vectors. -/
theorem C4_covariance_symmetry (dt : ℝ) (ie me no : FloatVect3) (s : AhrsMlkf)
    (hP : s.Pᵀ = s.P) (_hno : 0 ≤ no.x ∧ 0 ≤ no.y ∧ 0 ≤ no.z) :
    ((propagate_state dt s).P)ᵀ = (propagate_state dt s).P
    ∧ ((update_state ie me no s).P)ᵀ = (update_state ie me no s).P := by
  constructor
  · rw [propagate_state_P]
    rw [Matrix.transpose_add, Matrix.diagonal_transpose, Matrix.transpose_mul,
      Matrix.transpose_mul, Matrix.transpose_transpose, hP, Matrix.mul_assoc]
  · rw [update_state_eq]
    dsimp only
    have hS := specS_symm s ie no hP
    have hM := MAT_INV33_symm _ hS
    rw [Matrix.transpose_mul, Matrix.transpose_sub, Matrix.transpose_one,
      Matrix.transpose_mul, Matrix.transpose_mul, Matrix.transpose_mul,
      Matrix.transpose_transpose, hP, hM]
    simp only [Matrix.mul_sub, Matrix.sub_mul, Matrix.mul_one, Matrix.one_mul,
      Matrix.mul_assoc]

/-- C1: the generic measurement update computes the predicted measurement by
rotating the expected vector with the current reference quaternion
(`specPred`), forms the observation Jacobian `H = [skew(predicted) | 0]`
(`specH`) whose bias columns are all zero, forms
`S = H P Hᵀ + diag(noise)` (`specS`), the gain `K = P Hᵀ S⁻¹` (`specK`),
the innovation `e = measured − predicted`, adds the first three components
of `K·e` to the Gibbs error vector and the last three to the gyro-bias
estimate, and replaces `P` with `(I − K H) P`. -/
theorem C1_measurement_update (s : AhrsMlkf) (ie me no : FloatVect3)
    (hdet : (specS s ie no).det ≠ 0) :
    (update_state ie me no s).P = (1 - specK s ie no * specH (specPred s ie)) * s.P
    ∧ (update_state ie me no s).gibbs_cor.qx
        = s.gibbs_cor.qx + (specK s ie no 0 0 * (me.x - (specPred s ie).x)
            + specK s ie no 0 1 * (me.y - (specPred s ie).y)
            + specK s ie no 0 2 * (me.z - (specPred s ie).z))
    ∧ (update_state ie me no s).gibbs_cor.qy
        = s.gibbs_cor.qy + (specK s ie no 1 0 * (me.x - (specPred s ie).x)
            + specK s ie no 1 1 * (me.y - (specPred s ie).y)
            + specK s ie no 1 2 * (me.z - (specPred s ie).z))
    ∧ (update_state ie me no s).gibbs_cor.qz
        = s.gibbs_cor.qz + (specK s ie no 2 0 * (me.x - (specPred s ie).x)
            + specK s ie no 2 1 * (me.y - (specPred s ie).y)
            + specK s ie no 2 2 * (me.z - (specPred s ie).z))
    ∧ (update_state ie me no s).gyro_bias.p
        = s.gyro_bias.p + (specK s ie no 3 0 * (me.x - (specPred s ie).x)
            + specK s ie no 3 1 * (me.y - (specPred s ie).y)
            + specK s ie no 3 2 * (me.z - (specPred s ie).z))
    ∧ (update_state ie me no s).gyro_bias.q
        = s.gyro_bias.q + (specK s ie no 4 0 * (me.x - (specPred s ie).x)
            + specK s ie no 4 1 * (me.y - (specPred s ie).y)
            + specK s ie no 4 2 * (me.z - (specPred s ie).z))
    ∧ (update_state ie me no s).gyro_bias.r
        = s.gyro_bias.r + (specK s ie no 5 0 * (me.x - (specPred s ie).x)
            + specK s ie no 5 1 * (me.y - (specPred s ie).y)
            + specK s ie no 5 2 * (me.z - (specPred s ie).z))
    ∧ (update_state ie me no s).gibbs_cor.qi = s.gibbs_cor.qi
    ∧ (∀ (i : Fin 3) (j : Fin 6), 3 ≤ (j : ℕ) → specH (specPred s ie) i j = 0) := by
  have hM : MAT_INV33 (specS s ie no) = (specS s ie no)⁻¹ := MAT_INV33_eq_inv _ hdet
  have hK : s.P * (specH (specPred s ie))ᵀ * MAT_INV33 (specS s ie no) = specK s ie no := by
    rw [hM]; rfl
  rw [update_state_eq]
  dsimp only
  rw [hK]
  refine ⟨rfl, rfl, rfl, rfl, rfl, rfl, rfl, rfl, ?_⟩
  intro i j hj
  simp only [specH, Matrix.of_apply]
  rw [dif_neg (by omega)]

/-! ### A concrete running state, used by the witnesses -/

/-- A concrete filter state: identity reference quaternion, identity
covariance, zero rates and biases, running. -/
def s0 : AhrsMlkf :=
  { status := MlkfStatus.Running
    ltp_to_imu_quat := ⟨1, 0, 0, 0⟩
    imu_rate := ⟨0, 0, 0⟩
    gyro_bias := ⟨0, 0, 0⟩
    gibbs_cor := ⟨1, 0, 0, 0⟩
    P := 1
    lp_accel := 0
    mag_h := ⟨1, 0, 0⟩
    mag_noise := ⟨0.2, 0.2, 0.2⟩
    body_to_imu_quat := ⟨1, 0, 0, 0⟩
    body_to_imu_rmat := 1
    published_quat := ⟨1, 0, 0, 0⟩
    published_rate := ⟨0, 0, 0⟩ }

lemma s0_pred : specPred s0 ⟨0, 0, -1⟩ = ⟨0, 0, -1⟩ := by
  simp only [specPred, float_quat_vmult, s0]
  norm_num

lemma s0_specS : specS s0 ⟨0, 0, -1⟩ ⟨1, 1, 1⟩ = !![2, 0, 0; 0, 2, 0; 0, 0, 1] := by
  ext i j
  rw [specS, s0_pred]
  fin_cases i <;> fin_cases j <;>
    simp [specH, skewM, noiseVec, s0, Matrix.mul_apply, Fin.sum_univ_six,
      Matrix.diagonal_apply, Matrix.one_apply, Matrix.vecHead, Matrix.vecTail] <;>
    norm_num

lemma s0_det_ne : (specS s0 ⟨0, 0, -1⟩ ⟨1, 1, 1⟩).det ≠ 0 := by
  rw [s0_specS]
  norm_num [Matrix.det_fin_three]

theorem C1_measurement_update_witness :
    (specS s0 ⟨0, 0, -1⟩ ⟨1, 1, 1⟩).det ≠ 0
    ∧ (update_state ⟨0, 0, -1⟩ ⟨0, 0, -1⟩ ⟨1, 1, 1⟩ s0).gibbs_cor.qi = s0.gibbs_cor.qi :=
  ⟨s0_det_ne,
   (C1_measurement_update s0 ⟨0, 0, -1⟩ ⟨0, 0, -1⟩ ⟨1, 1, 1⟩ s0_det_ne).2.2.2.2.2.2.2.1⟩

theorem C4_covariance_symmetry_witness :
    s0.Pᵀ = s0.P
    ∧ (((propagate_state 1 s0).P)ᵀ = (propagate_state 1 s0).P
        ∧ ((update_state ⟨0, 0, -1⟩ ⟨0, 0, -1⟩ ⟨1, 1, 1⟩ s0).P)ᵀ
            = (update_state ⟨0, 0, -1⟩ ⟨0, 0, -1⟩ ⟨1, 1, 1⟩ s0).P) := by
  have hp : s0.Pᵀ = s0.P := by
    rw [show s0.P = (1 : Matrix (Fin 6) (Fin 6) ℝ) from rfl, Matrix.transpose_one]
  exact ⟨hp, C4_covariance_symmetry 1 ⟨0, 0, -1⟩ ⟨0, 0, -1⟩ ⟨1, 1, 1⟩ s0 hp
    (by norm_num)⟩

/-- After a reset, the reference quaternion has unit norm (the composed
quaternion is nonzero because the folded-in Gibbs vector has scalar part 2). -/
lemma reset_quat_norm (s : AhrsMlkf) (h : s.ltp_to_imu_quat ≠ quatZero) :
    quatNorm ((reset_state s).ltp_to_imu_quat) = 1 := by
  show quatNorm (float_quat_normalize
    (float_quat_comp s.ltp_to_imu_quat { s.gibbs_cor with qi := 2 })) = 1
  apply quatNorm_normalize
  apply comp_ne_zero _ _ h
  intro hg
  have h2 := congrArg FloatQuat.qi hg
  simp [quatZero] at h2

/-- C3: every error-state reset composes the reference quaternion with the
accumulated Gibbs error vector taken with scalar part 2, renormalizes the
composition to unit length and stores it as the new reference quaternion,
and leaves the Gibbs error vector equal to scalar 2, vector zero
(`float_quat_identity`, modelled from the spec). -/
theorem C3_reset_state (s : AhrsMlkf) (h : s.ltp_to_imu_quat ≠ quatZero) :
    (reset_state s).ltp_to_imu_quat
        = float_quat_normalize (float_quat_comp s.ltp_to_imu_quat { s.gibbs_cor with qi := 2 })
    ∧ quatNorm ((reset_state s).ltp_to_imu_quat) = 1
    ∧ (reset_state s).gibbs_cor = ⟨2, 0, 0, 0⟩ :=
  ⟨rfl, reset_quat_norm s h, rfl⟩

lemma s0_quat_ne : s0.ltp_to_imu_quat ≠ quatZero := by
  intro h
  have h2 := congrArg FloatQuat.qi h
  simp [s0, quatZero] at h2

theorem C3_reset_state_witness :
    s0.ltp_to_imu_quat ≠ quatZero
    ∧ quatNorm ((reset_state s0).ltp_to_imu_quat) = 1 :=
  ⟨s0_quat_ne, (C3_reset_state s0 s0_quat_ne).2.1⟩

/-- C5: the reference quaternion has unit norm immediately after every
error-state reset and immediately after every reference-quaternion
propagation step (whose modelled integration renormalizes), provided the
state's quaternion is nondegenerate. -/
theorem C5_unit_norm (s : AhrsMlkf) (g : FloatRates) (dt : ℝ)
    (h : s.ltp_to_imu_quat ≠ quatZero) :
    quatNorm ((reset_state s).ltp_to_imu_quat) = 1
    ∧ quatNorm ((propagate_ref g dt s).ltp_to_imu_quat) = 1 :=
  ⟨reset_quat_norm s h, quatNorm_integrate _ _ _ h⟩

theorem C5_unit_norm_witness :
    s0.ltp_to_imu_quat ≠ quatZero
    ∧ (quatNorm ((reset_state s0).ltp_to_imu_quat) = 1
        ∧ quatNorm ((propagate_ref ⟨0, 0, 0⟩ 1 s0).ltp_to_imu_quat) = 1) :=
  ⟨s0_quat_ne, C5_unit_norm s0 ⟨0, 0, 0⟩ 1 s0_quat_ne⟩

/-- C6: on every accelerometer update the persistent low-pass estimate of the
specific-force deviation becomes `0.92·lp + 0.08·(|measured| − 9.81)`, the
per-axis noise variance passed to the generic update is `1 + 250·|lp|`
(`accelNoise`) on all three axes, and a larger lowpassed deviation yields a
strictly larger noise variance. -/
theorem C6_adaptive_accel_noise (s : AhrsMlkf) (a : FloatVect3) (d1 d2 : ℝ)
    (h : |d1| < |d2|) :
    (ahrs_mlkf_update_accel a s).lp_accel
        = 0.92 * s.lp_accel + 0.08 * (float_vect3_norm a - 9.81)
    ∧ ahrs_mlkf_update_accel a s
        = reset_state (update_state ⟨0, 0, -9.81⟩ a
            ⟨accelNoise (0.92 * s.lp_accel + 0.08 * (float_vect3_norm a - 9.81)),
             accelNoise (0.92 * s.lp_accel + 0.08 * (float_vect3_norm a - 9.81)),
             accelNoise (0.92 * s.lp_accel + 0.08 * (float_vect3_norm a - 9.81))⟩
            { s with lp_accel := 0.92 * s.lp_accel + 0.08 * (float_vect3_norm a - 9.81) })
    ∧ accelNoise d1 < accelNoise d2 := by
  have h08 : (1 : ℝ) - 0.92 = 0.08 := by norm_num
  refine ⟨?_, ?_, ?_⟩
  · show (0.92 : ℝ) * s.lp_accel + (1 - 0.92) * (float_vect3_norm a - 9.81)
        = 0.92 * s.lp_accel + 0.08 * (float_vect3_norm a - 9.81)
    rw [h08]
  · simp only [ahrs_mlkf_update_accel, accelNoise, h08]
  · unfold accelNoise
    linarith

theorem C6_adaptive_accel_noise_witness :
    |(0 : ℝ)| < |(1 : ℝ)| ∧ accelNoise 0 < accelNoise 1 :=
  ⟨by norm_num, (C6_adaptive_accel_noise s0 ⟨0, 0, 0⟩ 0 1 (by norm_num)).2.2⟩

/-- An uninitialized variant of the concrete state, used by witnesses. -/
def s0u : AhrsMlkf := { s0 with status := MlkfStatus.Uninit }

/-- C7: the very first gyro sample after construction (`last_stamp = 0`)
triggers no propagation — the state is unchanged and only the timestamp is
recorded — and propagation with the computed `dt` occurs exactly when a
prior timestamp exists and the status is `Running`. -/
theorem C7_first_gyro_sample (stamp last : ℕ) (g : FloatRates) (s s2 : AhrsMlkf)
    (hlast : 0 < last) (hrun : s.status = MlkfStatus.Running)
    (hnot : s2.status ≠ MlkfStatus.Running) :
    gyro_cb stamp g (0, s) = (stamp, s)
    ∧ gyro_cb stamp g (last, s)
        = (stamp, ahrs_mlkf_propagate g (gyro_dt stamp last) s)
    ∧ gyro_cb stamp g (last, s2) = (stamp, s2) := by
  refine ⟨?_, ?_, ?_⟩
  · simp [gyro_cb]
  · simp [gyro_cb, hlast, hrun]
  · simp [gyro_cb, hnot]

theorem C7_first_gyro_sample_witness :
    0 < 1
    ∧ s0.status = MlkfStatus.Running
    ∧ s0u.status ≠ MlkfStatus.Running
    ∧ gyro_cb 5 ⟨0, 0, 0⟩ (0, s0) = (5, s0) :=
  ⟨by norm_num, rfl, by decide,
   (C7_first_gyro_sample 5 1 ⟨0, 0, 0⟩ s0 s0u (by norm_num) rfl (by decide)).1⟩

lemma status_propagate (g : FloatRates) (dt : ℝ) (s : AhrsMlkf) :
    (ahrs_mlkf_propagate g dt s).status = s.status := rfl

lemma status_update_accel (a : FloatVect3) (s : AhrsMlkf) :
    (ahrs_mlkf_update_accel a s).status = s.status := rfl

lemma status_update_mag (m : FloatVect3) (s : AhrsMlkf) :
    (ahrs_mlkf_update_mag m s).status = s.status := rfl

lemma status_align (lg : FloatRates) (la lm : FloatVect3) (s : AhrsMlkf) :
    (ahrs_mlkf_align lg la lm s).status = MlkfStatus.Running := rfl

/-- A running filter stays running across any single event. -/
lemma step_status_run (e : MlkfEvent) (st : ℕ × AhrsMlkf)
    (h : st.2.status = MlkfStatus.Running) :
    (mlkf_step e st).2.status = MlkfStatus.Running := by
  cases e with
  | gyro stamp g =>
      by_cases hc : 0 < st.1
      · simp [mlkf_step, gyro_cb, hc, h, status_propagate]
      · simp [mlkf_step, gyro_cb, hc, h]
  | accel a => simp [mlkf_step, accel_cb, h, status_update_accel]
  | mag m => simp [mlkf_step, mag_cb, h, status_update_mag]
  | align lg la lm => simp [mlkf_step, aligner_cb, h]

/-- A non-alignment event never changes the status. -/
lemma step_status_eq (e : MlkfEvent) (st : ℕ × AhrsMlkf)
    (h : e.isAlign = false) :
    (mlkf_step e st).2.status = st.2.status := by
  cases e with
  | gyro stamp g =>
      by_cases hc : 0 < st.1
      · by_cases hs : st.2.status = MlkfStatus.Running
        · simp [mlkf_step, gyro_cb, hc, hs, status_propagate]
        · simp [mlkf_step, gyro_cb, hc, hs]
      · simp [mlkf_step, gyro_cb, hc]
  | accel a =>
      by_cases hs : st.2.status = MlkfStatus.Running
      · simp [mlkf_step, accel_cb, hs, status_update_accel]
      · simp [mlkf_step, accel_cb, hs]
  | mag m =>
      by_cases hs : st.2.status = MlkfStatus.Running
      · simp [mlkf_step, mag_cb, hs, status_update_mag]
      · simp [mlkf_step, mag_cb, hs]
  | align lg la lm => simp [MlkfEvent.isAlign] at h

/-- A running filter stays running across any event sequence. -/
lemma run_status_run (evs : List MlkfEvent) :
    ∀ st : ℕ × AhrsMlkf, st.2.status = MlkfStatus.Running →
      (mlkf_run evs st).2.status = MlkfStatus.Running := by
  induction evs with
  | nil => intro st h; exact h
  | cons e tl ih =>
      intro st h
      exact ih _ (step_status_run e st h)

/-- C8: across every sequence of sensor and alignment events, the status
moves from `Uninit` to `Running` only via the alignment handler (non-align
events preserve the status, an alignment event always leaves it `Running`),
a running filter never transitions back, and an alignment event delivered
while running changes no filter state at all. -/
theorem C8_status_transitions (e : MlkfEvent) (st : ℕ × AhrsMlkf) :
    (st.2.status = MlkfStatus.Running → (mlkf_step e st).2.status = MlkfStatus.Running)
    ∧ (e.isAlign = false → (mlkf_step e st).2.status = st.2.status)
    ∧ (e.isAlign = true → (mlkf_step e st).2.status = MlkfStatus.Running)
    ∧ (e.isAlign = true → st.2.status = MlkfStatus.Running → mlkf_step e st = st)
    ∧ (∀ (evs : List MlkfEvent) (st2 : ℕ × AhrsMlkf),
        st2.2.status = MlkfStatus.Running →
          (mlkf_run evs st2).2.status = MlkfStatus.Running) := by
  refine ⟨step_status_run e st, step_status_eq e st, ?_, ?_,
    fun evs st2 h => run_status_run evs st2 h⟩
  · intro ha
    cases e with
    | gyro stamp g => simp [MlkfEvent.isAlign] at ha
    | accel a => simp [MlkfEvent.isAlign] at ha
    | mag m => simp [MlkfEvent.isAlign] at ha
    | align lg la lm =>
        by_cases hs : st.2.status = MlkfStatus.Running
        · simp [mlkf_step, aligner_cb, hs]
        · simp [mlkf_step, aligner_cb, hs, status_align]
  · intro ha hr
    cases e with
    | gyro stamp g => simp [MlkfEvent.isAlign] at ha
    | accel a => simp [MlkfEvent.isAlign] at ha
    | mag m => simp [MlkfEvent.isAlign] at ha
    | align lg la lm => simp [mlkf_step, aligner_cb, hr]

theorem C8_status_transitions_witness :
    (0, s0).2.status = MlkfStatus.Running
    ∧ (MlkfEvent.align ⟨0, 0, 0⟩ ⟨0, 0, 0⟩ ⟨0, 0, 0⟩).isAlign = true
    ∧ mlkf_step (MlkfEvent.align ⟨0, 0, 0⟩ ⟨0, 0, 0⟩ ⟨0, 0, 0⟩) (0, s0) = (0, s0) :=
  ⟨rfl, rfl,
   (C8_status_transitions (MlkfEvent.align ⟨0, 0, 0⟩ ⟨0, 0, 0⟩ ⟨0, 0, 0⟩)
     (0, s0)).2.2.2.1 rfl rfl⟩

/-- C9: the body-frame projection (publishing the vehicle-body quaternion and
body rates to the vehicle-state sink) is executed exactly by the propagation
path and by alignment: after a propagation the sink holds the projection of
the freshly propagated quaternion and rate, after alignment the projection of
the alignment quaternion and current rate, while accelerometer and
magnetometer updates (update followed by reset) leave the sink untouched. -/
theorem C9_body_projection (s : AhrsMlkf) (a m la lm : FloatVect3)
    (g lg : FloatRates) (dt : ℝ) :
    (ahrs_mlkf_update_accel a s).published_quat = s.published_quat
    ∧ (ahrs_mlkf_update_accel a s).published_rate = s.published_rate
    ∧ (ahrs_mlkf_update_mag m s).published_quat = s.published_quat
    ∧ (ahrs_mlkf_update_mag m s).published_rate = s.published_rate
    ∧ (ahrs_mlkf_propagate g dt s).published_quat
        = float_quat_comp_inv (propagate_ref g dt s).ltp_to_imu_quat s.body_to_imu_quat
    ∧ (ahrs_mlkf_propagate g dt s).published_rate
        = float_rmat_transp_ratemult s.body_to_imu_rmat (propagate_ref g dt s).imu_rate
    ∧ (ahrs_mlkf_align lg la lm s).published_quat
        = float_quat_comp_inv (ahrs_float_get_quat_from_accel_mag la lm) s.body_to_imu_quat
    ∧ (ahrs_mlkf_align lg la lm s).published_rate
        = float_rmat_transp_ratemult s.body_to_imu_rmat s.imu_rate :=
  ⟨rfl, rfl, rfl, rfl, rfl, rfl, rfl, rfl⟩

/-- C10 counterexample: a decoded roll of `4π` in an accepted attitude frame
is written as `2π`, outside `(−π, π]`; the single conditional subtraction of
`parse_ins_msg` reduces only rolls in `(−π, 3π]`. -/
theorem C10_roll_range_counterexample :
    ¬ (-Real.pi < (chimu_handle_msg 3 (4 * Real.pi) 0 0 ⟨0, 0, 0⟩).phi
        ∧ (chimu_handle_msg 3 (4 * Real.pi) 0 0 ⟨0, 0, 0⟩).phi ≤ Real.pi) := by
  have hpi := Real.pi_pos
  intro h
  have hv : (chimu_handle_msg 3 (4 * Real.pi) 0 0 ⟨0, 0, 0⟩).phi = 2 * Real.pi := by
    simp only [chimu_handle_msg, chimu_reduce_phi, if_pos]
    rw [if_pos (by linarith)]
    ring
  rw [hv] at h
  linarith [h.2]

/-- C10 (amended): for every attitude frame (message id 3) whose decoded roll
lies in `(−π, 3π]`, the roll written to the vehicle-state sink lies in
`(−π, π]`. -/
theorem C10_roll_range (phi theta psi : ℝ) (sink : ChimuSink)
    (h1 : -Real.pi < phi) (h2 : phi ≤ 3 * Real.pi) :
    -Real.pi < (chimu_handle_msg 3 phi theta psi sink).phi
    ∧ (chimu_handle_msg 3 phi theta psi sink).phi ≤ Real.pi := by
  have hpi := Real.pi_pos
  show -Real.pi < chimu_reduce_phi phi ∧ chimu_reduce_phi phi ≤ Real.pi
  unfold chimu_reduce_phi
  by_cases hgt : phi > Real.pi
  · rw [if_pos hgt]
    constructor <;> linarith
  · rw [if_neg hgt]
    push_neg at hgt
    constructor <;> linarith

theorem C10_roll_range_witness :
    (-Real.pi < 0 ∧ (0 : ℝ) ≤ 3 * Real.pi)
    ∧ (-Real.pi < (chimu_handle_msg 3 0 0 0 ⟨0, 0, 0⟩).phi
        ∧ (chimu_handle_msg 3 0 0 0 ⟨0, 0, 0⟩).phi ≤ Real.pi) :=
  ⟨⟨by linarith [Real.pi_pos], by positivity⟩,
   C10_roll_range 0 0 0 ⟨0, 0, 0⟩ (by linarith [Real.pi_pos]) (by positivity)⟩
